import Mathlib

/-!
Verification development for the chromatopy peak-to-species assignment and
concentration-quantification engine.

The repository ships documentation, data-model definitions and serialized
artifacts; the engine itself (`ChromAnalyzer.define_molecule`,
`add_molecule`, `add_standard`, `define_internal_standard`, the reader
functions and the quantification routines) is not part of the source tree.
Those operations are therefore modelled here from the specification
(sections 3, 4.1, 4.2, 4.3, 6 and 7) and from the behaviour documented in
`docs/examples/define_molecules.md`, `docs/examples/peak_assignment.md` and
`docs/examples/read_data.md`.  Serialized `Standard` artifacts found in the
repository are embedded verbatim as concrete data where they decide a claim.

Retention times, areas and concentrations are embedded as rationals so that
every operation is executable and every predicate decidable.
-/

namespace Chromatopy

/-- Peak record: retention time, area and the optional species annotation
(`species_id` is unset until the Assignment Engine labels the peak). -/
structure Peak where
  retention_time : ℚ
  area : ℚ
  species_id : Option String
deriving DecidableEq, Repr

/-- Chromatogram: carries the list of detected peaks (the signal trace plays
no role in assignment or quantification and is omitted). -/
structure Chromatogram where
  peaks : List Peak
deriving DecidableEq, Repr

/-- Data of a peak that the matching and tie-break policy inspects:
retention time and area.  Assignment never depends on `species_id` beyond
"not yet assigned to this species", which holds for every peak after the
clearing pass. -/
def shape (p : Peak) : ℚ × ℚ :=
  (p.retention_time, p.area)

/-- Modelled from the spec (section 4.1): a peak matches a species with
nominal retention time `rt` and tolerance `tol` if
`|peak.retention_time - rt| <= tol` (boundary inclusive). -/
def shapeMatches (rt tol : ℚ) (s : ℚ × ℚ) : Bool :=
  decide (|s.1 - rt| ≤ tol)

/-- Matching predicate on a full peak record. -/
def peakMatches (rt tol : ℚ) (p : Peak) : Bool :=
  shapeMatches rt tol (shape p)

/-- Boolean test for "this peak is annotated with species `sid`". -/
def isAssignedTo (sid : String) (p : Peak) : Bool :=
  decide (p.species_id = some sid)

/-- Clearing step of one peak: drop a prior annotation with species `sid`,
leave annotations of other species untouched. -/
def clearPeak (sid : String) (p : Peak) : Peak :=
  if p.species_id = some sid then { p with species_id := none } else p

/-- Modelled from the spec (section 4.1): re-running assignment for a
species first clears its prior assignments in the processed chromatograms. -/
def clearSpecies (sid : String) (ps : List Peak) : List Peak :=
  ps.map (clearPeak sid)

/-- Annotate the peak at position `i` with species `sid`. -/
def setSpeciesAt (sid : String) : ℕ → List Peak → List Peak
  | _, [] => []
  | 0, p :: ps => { p with species_id := some sid } :: ps
  | n + 1, p :: ps => p :: setSpeciesAt sid n ps

/-- Tie-break policy of the spec (section 3): candidate `y` beats the
current best `b` if it is strictly closer to the nominal retention time, or
equally close with a strictly larger area; otherwise the earlier-detected
peak is kept. -/
def betterCand (rt : ℚ) (b y : ℕ × (ℚ × ℚ)) : Bool :=
  decide (|y.2.1 - rt| < |b.2.1 - rt|) ||
    (decide (|y.2.1 - rt| = |b.2.1 - rt|) && decide (b.2.2 < y.2.2))

/-- Modelled from the spec (sections 3 and 4.1): among the peaks of one
chromatogram (given by their index and shape), select the index of the
peak chosen for a species at retention time `rt` with tolerance `tol`:
the matching peak closest to `rt`, ties broken by area descending, then by
first-detected order.  Returns `none` when no peak matches. -/
def pickIdx (rt tol : ℚ) (l : List (ℚ × ℚ)) : Option ℕ :=
  match (l.enum).filter (fun x => shapeMatches rt tol x.2) with
  | [] => none
  | x :: xs => some ((xs.foldl (fun b y => if betterCand rt b y then y else b) x).1)

/-- Modelled from the spec (section 4.1): process one chromatogram for one
species: clear the species' prior assignments, then annotate the chosen
matching peak (if any).  The returned flag records whether an assignment
succeeded in this chromatogram. -/
def assignChrom (sid : String) (rt tol : ℚ) (c : Chromatogram) :
    Chromatogram × Bool :=
  match pickIdx rt tol ((clearSpecies sid c.peaks).map shape) with
  | none => (⟨clearSpecies sid c.peaks⟩, false)
  | some i => (⟨setSpeciesAt sid i (clearSpecies sid c.peaks)⟩, true)

/-- Modelled from the spec (section 4.1):
`assign(species, chromatograms) -> count`: process every chromatogram of
the series and return the updated series together with the number of
chromatograms in which an assignment succeeded. -/
def assignSpecies (sid : String) (rt tol : ℚ) (cs : List Chromatogram) :
    List Chromatogram × ℕ :=
  ((cs.map (assignChrom sid rt tol)).map Prod.fst,
    (cs.map (assignChrom sid rt tol)).countP (fun r => r.2))

/-! Species registry and analyzer operations. -/

/-- Molecule (species) record, following the data model of
`docs/examples/define_molecules.md` and the chromatography schema. -/
structure Molecule where
  id : String
  pubchem_cid : ℤ
  name : String
  retention_time : ℚ
  retention_tolerance : ℚ
  init_conc : Option ℚ
  internal_standard : Bool
deriving DecidableEq, Repr

/-- Modelled from the spec (section 3) and
`docs/examples/define_molecules.md`: the retention tolerance defaults to
0.2 minutes when none is given. -/
def defaultRetentionTolerance : ℚ := 1/5

/-- Build a molecule from the `define_molecule` parameters; an absent
`retention_tolerance` argument falls back to the default. -/
def mkMolecule (id name : String) (cid : ℤ) (rt : ℚ) (tol? : Option ℚ)
    (initConc : Option ℚ) (isStd : Bool) : Molecule :=
  ⟨id, cid, name, rt, tol?.getD defaultRetentionTolerance, initConc, isStd⟩

/-- Analyzer state: the loaded chromatogram series and the registered
molecules. -/
structure ChromAnalyzer where
  chromatograms : List Chromatogram
  molecules : List Molecule
deriving DecidableEq, Repr

/-- Modelled from the spec and `docs/examples/define_molecules.md`:
`add_molecule` registers an existing molecule and, as a side effect of the
registration itself, runs peak assignment for it over every loaded
chromatogram. -/
def addMolecule (an : ChromAnalyzer) (m : Molecule) : ChromAnalyzer :=
  ⟨(assignSpecies m.id m.retention_time m.retention_tolerance an.chromatograms).1,
   an.molecules ++ [m]⟩

/-- Modelled from the spec and `docs/examples/define_molecules.md`:
`define_molecule` creates the molecule, registers it and triggers peak
assignment immediately; the created molecule is returned. -/
def defineMolecule (an : ChromAnalyzer) (id name : String) (cid : ℤ)
    (rt : ℚ) (tol? : Option ℚ) (initConc : Option ℚ) :
    ChromAnalyzer × Molecule :=
  (addMolecule an (mkMolecule id name cid rt tol? initConc false),
   mkMolecule id name cid rt tol? initConc false)

/-! Quantification engine. -/

/-- Error taxonomy of the spec (section 7); only the hard errors surface in
return values. -/
inductive QuantError where
  | validationError
  | configurationError
  | fitError
deriving DecidableEq, Repr

/-- Peak-area series of a species over the chromatogram list: one entry per
chromatogram, `none` marking the explicit gap where no peak carries the
species annotation. -/
def areaSeries (sid : String) (cs : List Chromatogram) : List (Option ℚ) :=
  cs.map (fun c => (c.peaks.find? (isAssignedTo sid)).map Peak.area)

/-- Per-index internal-standard formula: with baseline `r0` and initial
concentration `c0`, an index where both areas are present maps to
`c0 * (a / i) / r0`; a missing analyte or internal-standard peak propagates
as a gap for that index only. -/
def isRatioEntry (r0 c0 : ℚ) : Option ℚ → Option ℚ → Option ℚ
  | some a, some i => some (c0 * (a / i) / r0)
  | _, _ => none

/-- Modelled from the spec (section 4.3) and the formula block of
`docs/examples/peak_assignment.md`: internal-standard quantification.
Requires the declared initial concentration (`ConfigurationError` when
absent) and both peaks assigned in chromatogram 0; computes
`R0 = A_Ana[0] / A_IS[0]` and, per chromatogram `n`,
`C_Ana[n] = C_Ana[0] * (A_Ana[n] / A_IS[n]) / R0`, with gaps preserved. -/
def quantifyInternal (c0? : Option ℚ) (aAna aIS : List (Option ℚ)) :
    Except QuantError (List (Option ℚ)) :=
  match c0? with
  | none => Except.error QuantError.configurationError
  | some c0 =>
    match aAna[0]?, aIS[0]? with
    | some (some a0), some (some i0) =>
        Except.ok (List.zipWith (isRatioEntry (a0 / i0) c0) aAna aIS)
    | _, _ => Except.error QuantError.configurationError

/-! Calibration fitter. -/

/-- Valid range of a calibration, mirroring the `calibration_range` object
of the serialized `Standard` artifacts in `src/unnamed/part_000`. -/
structure CalibrationRange where
  conc_lower : ℚ
  conc_upper : ℚ
  signal_lower : ℚ
  signal_upper : ℚ
deriving DecidableEq, Repr

/-- Calibration artifact for one species: the fitted linear slope
(`signal = a * concentration`) and the recorded valid range. -/
structure Standard where
  molecule_id : String
  slope : ℚ
  calibration_range : CalibrationRange
deriving DecidableEq, Repr

/-- Calibration range as recorded in the repository's serialized `Standard`
artifacts (`src/unnamed/part_000`): both artifacts record lower bounds of
0.0 — not the minimum of the fitted samples — and upper bounds equal to the
maxima of the fitted concentrations and signals. -/
def calibRange (samples : List (ℚ × ℚ)) : CalibrationRange :=
  ⟨0, (samples.map Prod.fst).foldl max 0, 0, (samples.map Prod.snd).foldl max 0⟩

/-- Modelled from the spec (section 4.2): least-squares fit of the linear
through-origin signal law over (concentration, signal) samples, with a
`FitError` on the degenerate all-zero-concentration input. -/
def fitLinear (sid : String) (samples : List (ℚ × ℚ)) :
    Except QuantError Standard :=
  if (samples.map (fun s => s.1 * s.1)).sum = 0 then
    Except.error QuantError.fitError
  else
    Except.ok ⟨sid, (samples.map (fun s => s.1 * s.2)).sum /
      (samples.map (fun s => s.1 * s.1)).sum, calibRange samples⟩

/-- Pair the supplied concentrations with the assigned-peak signals,
keeping only the indices where a signal is present. -/
def samplePairs (concs : List ℚ) (sigs : List (Option ℚ)) : List (ℚ × ℚ) :=
  (List.zip concs sigs).filterMap (fun cz => cz.2.map (fun s => (cz.1, s)))

/-- Modelled from the spec (section 4.2) and
`docs/examples/peak_assignment.md`: `add_standard` requires one
concentration per chromatogram of the series (`ValidationError` otherwise)
and fits the linear signal law to the species' assigned peak areas. -/
def addStandard (cs : List Chromatogram) (sid : String) (concs : List ℚ) :
    Except QuantError Standard :=
  if concs.length ≠ cs.length then Except.error QuantError.validationError
  else fitLinear sid (samplePairs concs (areaSeries sid cs))

/-- Modelled from the spec (sections 4.3 and 7): external-standard
quantification of one signal: invert the linear law, and flag the result as
extrapolated when the signal or the concentration leaves the recorded
calibration range; the value is returned either way. -/
def quantifyExternalOne (std : Standard) (area : ℚ) : ℚ × Bool :=
  (area / std.slope,
    decide (area < std.calibration_range.signal_lower) ||
    decide (std.calibration_range.signal_upper < area) ||
    decide (area / std.slope < std.calibration_range.conc_lower) ||
    decide (std.calibration_range.conc_upper < area / std.slope))

/-- External-standard quantification of a whole series: the law is inverted
entrywise and gaps are preserved. -/
def quantifyExternal (std : Standard) (series : List (Option ℚ)) :
    List (Option ℚ) :=
  series.map (Option.map (fun a => a / std.slope))

/-! Reader model and series ordering. -/

/-- One instrument file as handed over by a format-specific reader:
its file name and the peak table parsed from it. -/
structure RawFile where
  name : String
  peaks : List Peak
deriving DecidableEq, Repr

/-- One measurement of the assembled series: identifier (from the file
name), the positional reaction time and the chromatogram. -/
structure Measurement where
  id : String
  reaction_time : ℚ
  chromatogram : Chromatogram
deriving DecidableEq, Repr

/-- Boolean comparison on file names used for the series order. -/
def strLe (a b : String) : Bool := decide (a ≤ b)

/-- Modelled from `docs/examples/read_data.md`: the reader functions sort
the imported files alphabetically by file name and attach the caller's
positional `reaction_times` list index by index to that order. -/
def readSeries (files : List RawFile) (reaction_times : List ℚ) :
    List Measurement :=
  List.zipWith (fun f t => ⟨f.name, t, ⟨f.peaks⟩⟩)
    (files.mergeSort (fun a b => strLe a.name b.name)) reaction_times

/-! Artifact data embedded from `src/unnamed/part_000` (the serialized
adenosine `Standard`). -/

/-- Sample concentrations of the serialized adenosine standard. -/
def adoSampleConcs : List ℚ := [25, 50, 100, 200, 400, 800]

/-- Sample signals of the serialized adenosine standard, embedded exactly. -/
def adoSampleSignals : List ℚ :=
  [20607049257077637/100000000, 4391950994666703/10000000,
   854035324340625/1000000, 17468524836073058/10000000,
   34359291671560173/10000000, 6884309268309377/1000000]

/-- Sample pairs of the serialized adenosine standard. -/
def adoSamples : List (ℚ × ℚ) := List.zip adoSampleConcs adoSampleSignals

/-- Calibration range recorded in the artifact (`conc_lower` 0.0,
`conc_upper` 800.0, `signal_lower` 0.0, `signal_upper` 6884309268.309377). -/
def adoRecordedRange : CalibrationRange :=
  ⟨0, 800, 0, 6884309268309377/1000000⟩

/-! Helper lemmas about the assignment engine. -/

theorem clearPeak_shape (sid : String) (p : Peak) :
    shape (clearPeak sid p) = shape p := by
  unfold clearPeak
  split <;> rfl

theorem clearPeak_not_assigned (sid : String) (p : Peak) :
    (clearPeak sid p).species_id ≠ some sid := by
  unfold clearPeak
  split
  · simp
  · assumption

theorem clearPeak_of_not_assigned (sid : String) (p : Peak)
    (h : p.species_id ≠ some sid) : clearPeak sid p = p := by
  unfold clearPeak
  simp [h]

theorem clearSpecies_shape (sid : String) (ps : List Peak) :
    (clearSpecies sid ps).map shape = ps.map shape := by
  unfold clearSpecies
  rw [List.map_map]
  exact List.map_congr_left (fun p _ => clearPeak_shape sid p)

theorem clearSpecies_not_assigned (sid : String) (ps : List Peak) :
    ∀ q ∈ clearSpecies sid ps, q.species_id ≠ some sid := by
  intro q hq
  unfold clearSpecies at hq
  obtain ⟨p, _, rfl⟩ := List.mem_map.mp hq
  exact clearPeak_not_assigned sid p

theorem clearSpecies_of_not_assigned (sid : String) (ps : List Peak)
    (h : ∀ q ∈ ps, q.species_id ≠ some sid) : clearSpecies sid ps = ps := by
  unfold clearSpecies
  have hmap : List.map (clearPeak sid) ps = List.map id ps :=
    List.map_congr_left (fun p hp => clearPeak_of_not_assigned sid p (h p hp))
  simpa using hmap

theorem setSpeciesAt_shape (sid : String) :
    ∀ (i : ℕ) (ps : List Peak),
      (setSpeciesAt sid i ps).map shape = ps.map shape := by
  intro i ps
  induction ps generalizing i with
  | nil => cases i <;> rfl
  | cons p ps ih =>
    cases i with
    | zero => simp [setSpeciesAt, shape]
    | succ n => simp [setSpeciesAt, ih]

theorem foldl_choice_mem {α : Type} (g : α → α → Bool) :
    ∀ (xs : List α) (b : α),
      xs.foldl (fun acc y => if g acc y then y else acc) b = b ∨
        xs.foldl (fun acc y => if g acc y then y else acc) b ∈ xs := by
  intro xs
  induction xs with
  | nil => intro b; left; rfl
  | cons y ys ih =>
    intro b
    simp only [List.foldl_cons]
    rcases ih (if g b y then y else b) with h | h
    · rw [h]
      by_cases hg : g b y
      · right; simp [hg]
      · left; simp [hg]
    · right; exact List.mem_cons_of_mem _ h

theorem enumFrom_fst_lt {α : Type} :
    ∀ (l : List α) (n : ℕ) (x : ℕ × α), x ∈ l.enumFrom n → x.1 < n + l.length := by
  intro l
  induction l with
  | nil => intro n x hx; simp [List.enumFrom] at hx
  | cons a l ih =>
    intro n x hx
    simp only [List.enumFrom, List.mem_cons] at hx
    rcases hx with rfl | hx
    · simp
    · have := ih (n + 1) x hx
      simp only [List.length_cons]
      omega

theorem pickIdx_lt (rt tol : ℚ) (l : List (ℚ × ℚ)) (i : ℕ)
    (h : pickIdx rt tol l = some i) : i < l.length := by
  unfold pickIdx at h
  cases hm : (l.enum).filter (fun x => shapeMatches rt tol x.2) with
  | nil => rw [hm] at h; simp at h
  | cons x xs =>
    rw [hm] at h
    simp only [Option.some.injEq] at h
    have hmem : (xs.foldl (fun b y => if betterCand rt b y then y else b) x) ∈ x :: xs := by
      rcases foldl_choice_mem (betterCand rt) xs x with he | he
      · rw [he]; exact List.mem_cons_self x xs
      · exact List.mem_cons_of_mem _ he
    rw [← hm] at hmem
    have henum : (xs.foldl (fun b y => if betterCand rt b y then y else b) x) ∈ l.enum :=
      List.mem_of_mem_filter hmem
    have hlt := enumFrom_fst_lt l 0 _ henum
    rw [← h]
    simpa using hlt

theorem setSpeciesAt_any (sid : String) :
    ∀ (i : ℕ) (ps : List Peak), i < ps.length →
      (setSpeciesAt sid i ps).any (isAssignedTo sid) = true := by
  intro i ps
  induction ps generalizing i with
  | nil => intro h; simp at h
  | cons p ps ih =>
    intro h
    cases i with
    | zero => simp [setSpeciesAt, isAssignedTo]
    | succ n =>
      have : n < ps.length := by simpa using h
      simp [setSpeciesAt, ih n this]

theorem clearSpecies_any_false (sid : String) (ps : List Peak) :
    (clearSpecies sid ps).any (isAssignedTo sid) = false := by
  rw [List.any_eq_false]
  intro q hq
  simp only [isAssignedTo, decide_eq_true_eq]
  exact clearSpecies_not_assigned sid ps q hq

/-- The per-chromatogram success flag agrees with "some peak of the output
chromatogram carries the species annotation". -/
theorem assignChrom_any (sid : String) (rt tol : ℚ) (c : Chromatogram) :
    (assignChrom sid rt tol c).1.peaks.any (isAssignedTo sid)
      = (assignChrom sid rt tol c).2 := by
  unfold assignChrom
  cases hp : pickIdx rt tol ((clearSpecies sid c.peaks).map shape) with
  | none => exact clearSpecies_any_false sid c.peaks
  | some i =>
    have hlen : i < (clearSpecies sid c.peaks).length := by
      have := pickIdx_lt rt tol _ i hp
      simpa using this
    exact setSpeciesAt_any sid i _ hlen

theorem assignChrom_eq_none (sid : String) (rt tol : ℚ) (c : Chromatogram)
    (hp : pickIdx rt tol ((clearSpecies sid c.peaks).map shape) = none) :
    assignChrom sid rt tol c = (⟨clearSpecies sid c.peaks⟩, false) := by
  unfold assignChrom
  rw [hp]

theorem assignChrom_eq_some (sid : String) (rt tol : ℚ) (c : Chromatogram) (i : ℕ)
    (hp : pickIdx rt tol ((clearSpecies sid c.peaks).map shape) = some i) :
    assignChrom sid rt tol c = (⟨setSpeciesAt sid i (clearSpecies sid c.peaks)⟩, true) := by
  unfold assignChrom
  rw [hp]

theorem clearSpecies_cons (sid : String) (q : Peak) (qs : List Peak) :
    clearSpecies sid (q :: qs) = clearPeak sid q :: clearSpecies sid qs := rfl

theorem clearPeak_set (sid : String) (q : Peak) :
    clearPeak sid { q with species_id := some sid } = { q with species_id := none } := by
  unfold clearPeak
  rw [if_pos rfl]

/-- Annotating position `i`, clearing the species and annotating position `i`
again lands back at the singly annotated list, provided no peak of the input
carried the annotation already (which clearing guarantees). -/
theorem set_clear_set (sid : String) :
    ∀ (qs : List Peak), (∀ q ∈ qs, q.species_id ≠ some sid) →
      ∀ (i : ℕ),
        setSpeciesAt sid i (clearSpecies sid (setSpeciesAt sid i qs))
          = setSpeciesAt sid i qs := by
  intro qs
  induction qs with
  | nil => intro _ i; cases i <;> rfl
  | cons q qs ih =>
    intro h i
    have hq : q.species_id ≠ some sid := h q (List.mem_cons_self q qs)
    have hqs : ∀ x ∈ qs, x.species_id ≠ some sid :=
      fun x hx => h x (List.mem_cons_of_mem q hx)
    cases i with
    | zero =>
      show setSpeciesAt sid 0 (clearSpecies sid ({ q with species_id := some sid } :: qs))
          = { q with species_id := some sid } :: qs
      rw [clearSpecies_cons, clearPeak_set, clearSpecies_of_not_assigned sid qs hqs]
      rfl
    | succ n =>
      show setSpeciesAt sid (n + 1) (clearSpecies sid (q :: setSpeciesAt sid n qs))
          = q :: setSpeciesAt sid n qs
      rw [clearSpecies_cons, clearPeak_of_not_assigned sid q hq]
      show q :: setSpeciesAt sid n (clearSpecies sid (setSpeciesAt sid n qs))
          = q :: setSpeciesAt sid n qs
      rw [ih hqs n]

/-- Re-running per-chromatogram assignment reproduces the same chromatogram
and the same success flag: the clearing pass makes the operation idempotent. -/
theorem assignChrom_idem (sid : String) (rt tol : ℚ) (c : Chromatogram) :
    assignChrom sid rt tol (assignChrom sid rt tol c).1 = assignChrom sid rt tol c := by
  cases hp : pickIdx rt tol ((clearSpecies sid c.peaks).map shape) with
  | none =>
    rw [assignChrom_eq_none sid rt tol c hp]
    have hp2 : pickIdx rt tol
        ((clearSpecies sid (Chromatogram.mk (clearSpecies sid c.peaks)).peaks).map shape)
        = none := by
      show pickIdx rt tol ((clearSpecies sid (clearSpecies sid c.peaks)).map shape) = none
      rw [clearSpecies_of_not_assigned sid _ (clearSpecies_not_assigned sid c.peaks)]
      exact hp
    rw [assignChrom_eq_none _ _ _ _ hp2]
    show (Chromatogram.mk (clearSpecies sid (clearSpecies sid c.peaks)), false) = _
    rw [clearSpecies_of_not_assigned sid _ (clearSpecies_not_assigned sid c.peaks)]
  | some i =>
    rw [assignChrom_eq_some sid rt tol c i hp]
    have hp2 : pickIdx rt tol
        ((clearSpecies sid
          (Chromatogram.mk (setSpeciesAt sid i (clearSpecies sid c.peaks))).peaks).map shape)
        = some i := by
      show pickIdx rt tol
          ((clearSpecies sid (setSpeciesAt sid i (clearSpecies sid c.peaks))).map shape)
          = some i
      rw [clearSpecies_shape, setSpeciesAt_shape]
      exact hp
    rw [assignChrom_eq_some _ _ _ _ i hp2]
    show (Chromatogram.mk
        (setSpeciesAt sid i (clearSpecies sid (setSpeciesAt sid i (clearSpecies sid c.peaks)))),
      true) = _
    rw [set_clear_set sid _ (clearSpecies_not_assigned sid c.peaks) i]

/-- `pickIdx` returns `none` exactly when no peak shape matches the window. -/
theorem pickIdx_none_iff (rt tol : ℚ) (l : List (ℚ × ℚ)) :
    pickIdx rt tol l = none ↔ ∀ s ∈ l, shapeMatches rt tol s = false := by
  unfold pickIdx
  cases hm : (l.enum).filter (fun x => shapeMatches rt tol x.2) with
  | nil =>
    simp only [true_iff]
    intro s hs
    have hs' : s ∈ (l.enum).map Prod.snd := by
      rw [List.enum_map_snd]; exact hs
    obtain ⟨x, hx, rfl⟩ := List.mem_map.mp hs'
    have hall : ∀ a ∈ l.enum, ¬ (shapeMatches rt tol a.2 = true) :=
      List.filter_eq_nil_iff.mp hm
    simpa using hall x hx
  | cons x xs =>
    constructor
    · intro h; simp at h
    · intro hall
      exfalso
      have hx : x ∈ (l.enum).filter (fun y => shapeMatches rt tol y.2) := by
        rw [hm]; exact List.mem_cons_self x xs
      have hmatch : shapeMatches rt tol x.2 = true := by
        have hb := List.of_mem_filter hx
        simpa using hb
      have hsnd : x.2 ∈ l := by
        have hmem : x.2 ∈ (l.enum).map Prod.snd :=
          List.mem_map_of_mem Prod.snd (List.mem_of_mem_filter hx)
        rwa [List.enum_map_snd] at hmem
      rw [hall x.2 hsnd] at hmatch
      exact Bool.false_ne_true hmatch

theorem pickIdx_some_exists (rt tol : ℚ) (l : List (ℚ × ℚ)) (i : ℕ)
    (h : pickIdx rt tol l = some i) : ∃ s ∈ l, shapeMatches rt tol s = true := by
  by_contra hno
  push_neg at hno
  have hnone : pickIdx rt tol l = none := by
    rw [pickIdx_none_iff]
    intro s hs
    exact Bool.eq_false_iff.mpr (hno s hs)
  rw [h] at hnone
  exact Option.noConfusion hnone

/-- The per-chromatogram success flag holds exactly when some peak of the
chromatogram lies inside the species' retention window. -/
theorem assignChrom_flag_iff (sid : String) (rt tol : ℚ) (c : Chromatogram) :
    (assignChrom sid rt tol c).2 = true
      ↔ ∃ p ∈ c.peaks, |p.retention_time - rt| ≤ tol := by
  cases hp : pickIdx rt tol ((clearSpecies sid c.peaks).map shape) with
  | none =>
    rw [assignChrom_eq_none sid rt tol c hp]
    have hall := (pickIdx_none_iff rt tol _).mp hp
    constructor
    · intro h; exact absurd h (by simp)
    · rintro ⟨p, hp', hle⟩
      have hmem : shape p ∈ (clearSpecies sid c.peaks).map shape := by
        rw [clearSpecies_shape]
        exact List.mem_map_of_mem shape hp'
      have := hall (shape p) hmem
      simp only [shapeMatches, shape, decide_eq_false_iff_not] at this
      exact absurd hle this
  | some i =>
    rw [assignChrom_eq_some sid rt tol c i hp]
    constructor
    · intro _
      obtain ⟨s, hs, hmatch⟩ := pickIdx_some_exists rt tol _ i hp
      rw [clearSpecies_shape] at hs
      obtain ⟨p, hp', rfl⟩ := List.mem_map.mp hs
      refine ⟨p, hp', ?_⟩
      simpa [shapeMatches, shape] using hmatch
    · intro _; rfl


/-! Claim theorems. -/

/-- Claim C2: a peak matches a species with nominal retention time `rt` and
tolerance `tol ≥ 0` if and only if `|peak.retention_time - rt| ≤ tol`; the
boundary is inclusive (a peak at exactly `rt`, and a peak at distance
exactly `tol`, match) and a peak at distance `tol + ε` for any `ε > 0` does
not match. -/
theorem retention_window_boundary (rt tol : ℚ) (p : Peak) (htol : 0 ≤ tol) :
    (peakMatches rt tol p = true ↔ |p.retention_time - rt| ≤ tol)
    ∧ (p.retention_time = rt → peakMatches rt tol p = true)
    ∧ (|p.retention_time - rt| = tol → peakMatches rt tol p = true)
    ∧ (∀ ε : ℚ, 0 < ε → |p.retention_time - rt| = tol + ε →
        peakMatches rt tol p = false) := by
  refine ⟨?_, ?_, ?_, ?_⟩
  · simp [peakMatches, shapeMatches, shape]
  · intro h
    simp [peakMatches, shapeMatches, shape, h, htol]
  · intro h
    simp [peakMatches, shapeMatches, shape, h]
  · intro ε hε h
    simp only [peakMatches, shapeMatches, shape, decide_eq_false_iff_not]
    rw [h]
    intro hc
    linarith

/-- Witness for C2 at a concrete input: with `rt = 2` and `tol = 1`, a peak
at `3` (distance exactly `tol`) matches and a peak at `4` (distance
`tol + 1`) does not. -/
theorem retention_window_boundary_witness :
    peakMatches 2 1 ⟨3, 10, none⟩ = true
    ∧ peakMatches 2 1 ⟨4, 10, none⟩ = false := by
  constructor
  · exact (retention_window_boundary 2 1 ⟨3, 10, none⟩ (by norm_num)).2.2.1
      (by norm_num)
  · exact (retention_window_boundary 2 1 ⟨4, 10, none⟩ (by norm_num)).2.2.2
      1 (by norm_num) (by norm_num)

/-- Claim C3: a molecule defined without an explicit retention tolerance gets the
default tolerance of 0.2 minutes, and the assignment triggered by the
definition is carried out with that tolerance. -/
theorem define_molecule_default_tolerance (an : ChromAnalyzer) (i n : String)
    (cid : ℤ) (rt : ℚ) (ic : Option ℚ) :
    (defineMolecule an i n cid rt none ic).2.retention_tolerance = 1/5
    ∧ defaultRetentionTolerance = 1/5
    ∧ (defineMolecule an i n cid rt none ic).1.chromatograms
        = (assignSpecies i rt (1/5) an.chromatograms).1 :=
  ⟨rfl, rfl, rfl⟩

/-- Claim C4: the assignment operation returns the number of chromatograms in
which at least one peak was assigned to the species, a quantity bounded by
the number of chromatograms (not the total number of assigned peaks). -/
theorem assign_count_is_chromatogram_count (sid : String) (rt tol : ℚ)
    (cs : List Chromatogram) :
    (assignSpecies sid rt tol cs).2
      = (assignSpecies sid rt tol cs).1.countP
          (fun c => c.peaks.any (isAssignedTo sid))
    ∧ (assignSpecies sid rt tol cs).2 ≤ cs.length := by
  constructor
  · show (cs.map (assignChrom sid rt tol)).countP (fun r => r.2)
        = ((cs.map (assignChrom sid rt tol)).map Prod.fst).countP
            (fun c => c.peaks.any (isAssignedTo sid))
    rw [List.countP_map, List.countP_map, List.countP_map]
    apply List.countP_congr
    intro c _
    simp [Function.comp, assignChrom_any]
  · calc (assignSpecies sid rt tol cs).2
        ≤ (cs.map (assignChrom sid rt tol)).length :=
          List.countP_le_length _
      _ = cs.length := List.length_map _ _

/-- Claim C8: peak assignment is idempotent: running the assignment operation a
second time on its own output yields the same chromatograms (hence the same
peak labels) and the same assigned count, because a re-run first clears the
species' prior assignments. -/
theorem assign_idempotent (sid : String) (rt tol : ℚ)
    (cs : List Chromatogram) :
    assignSpecies sid rt tol (assignSpecies sid rt tol cs).1
      = assignSpecies sid rt tol cs := by
  unfold assignSpecies
  simp only [List.map_map]
  have hcnt : ∀ c ∈ cs,
      ((assignChrom sid rt tol) ∘ Prod.fst ∘ (assignChrom sid rt tol)) c
        = assignChrom sid rt tol c := fun c _ => by
    simp only [Function.comp]
    exact assignChrom_idem sid rt tol c
  have hfst : ∀ c ∈ cs,
      (Prod.fst ∘ (assignChrom sid rt tol) ∘ Prod.fst ∘ (assignChrom sid rt tol)) c
        = (Prod.fst ∘ (assignChrom sid rt tol)) c := fun c _ => by
    simp only [Function.comp]
    rw [assignChrom_idem]
  rw [List.map_congr_left hcnt, List.map_congr_left hfst]

/-- Claim C9 (amended): defining a molecule (and likewise adding one)
immediately triggers peak assignment as a side effect of the definition
itself: the resulting analyzer's chromatograms are exactly the assigned
ones, a chromatogram ends up with an annotated peak precisely when it has a
peak inside the retention window, and the molecule is registered.  (The
original claim's "all matching peaks are annotated" fails under the
default tie-break policy, which annotates at most one peak per
chromatogram; see the counterexample below.) -/
theorem define_molecule_assigns_on_definition (an : ChromAnalyzer)
    (i n : String) (cid : ℤ) (rt tol : ℚ) (ic : Option ℚ) (k : ℕ)
    (c : Chromatogram) (hk : an.chromatograms[k]? = some c) :
    (defineMolecule an i n cid rt (some tol) ic).1.chromatograms[k]?
        = some (assignChrom i rt tol c).1
    ∧ ((assignChrom i rt tol c).1.peaks.any (isAssignedTo i) = true
        ↔ ∃ p ∈ c.peaks, |p.retention_time - rt| ≤ tol)
    ∧ (defineMolecule an i n cid rt (some tol) ic).1.molecules
        = an.molecules ++ [mkMolecule i n cid rt (some tol) ic false] := by
  refine ⟨?_, ?_, rfl⟩
  · show ((an.chromatograms.map (assignChrom i rt tol)).map Prod.fst)[k]?
        = some (assignChrom i rt tol c).1
    rw [List.getElem?_map, List.getElem?_map, hk]
    rfl
  · rw [assignChrom_any]
    exact assignChrom_flag_iff i rt tol c

/-- Witness for C9 at a concrete input: a single chromatogram with one peak
at retention time 1 is annotated by defining a molecule at retention time 1
with tolerance 1/2, with no separate assignment call. -/
theorem define_molecule_assigns_on_definition_witness :
    (defineMolecule ⟨[⟨[⟨1, 7, none⟩]⟩], []⟩ "m" "mol" 5957 1 (some (1/2))
        none).1.chromatograms[0]?
      = some (assignChrom "m" 1 (1/2) ⟨[⟨1, 7, none⟩]⟩).1
    ∧ ((assignChrom "m" 1 (1/2) ⟨[⟨1, 7, none⟩]⟩).1.peaks.any
          (isAssignedTo "m") = true
        ↔ ∃ p ∈ [(⟨1, 7, none⟩ : Peak)], |p.retention_time - 1| ≤ (1/2 : ℚ)) := by
  have h := define_molecule_assigns_on_definition ⟨[⟨[⟨1, 7, none⟩]⟩], []⟩
    "m" "mol" 5957 1 (1/2) none 0 ⟨[⟨1, 7, none⟩]⟩ rfl
  exact ⟨h.1, h.2.1⟩

/-- Claim C9 counterexample: with two peaks both inside the retention
window of a defined molecule (both at retention time 10, window 10 ± 1),
the definition-time assignment annotates only the tie-break winner (the
larger-area peak); the other matching peak stays unannotated, so not all
matching peaks are annotated at definition time. -/
theorem define_molecule_not_all_matching_annotated :
    peakMatches 10 1 ⟨10, 5, none⟩ = true
    ∧ peakMatches 10 1 ⟨10, 7, none⟩ = true
    ∧ (defineMolecule ⟨[⟨[⟨10, 5, none⟩, ⟨10, 7, none⟩]⟩], []⟩ "m" "mol" 1 10
        (some 1) none).1.chromatograms
      = [⟨[⟨10, 5, none⟩, ⟨10, 7, some "m"⟩]⟩] := by
  have hpick : pickIdx 10 1 [((10 : ℚ), (5 : ℚ)), (10, 7)] = some 1 := by
    unfold pickIdx
    norm_num [List.enum, List.enumFrom, List.filter, shapeMatches, betterCand]
  have hclear : clearSpecies "m" [⟨10, 5, none⟩, ⟨10, 7, none⟩]
      = [⟨10, 5, none⟩, ⟨10, 7, none⟩] :=
    clearSpecies_of_not_assigned _ _ (by simp)
  have hp2 : pickIdx 10 1
      ((clearSpecies "m" [⟨10, 5, none⟩, ⟨10, 7, none⟩]).map shape) = some 1 := by
    rw [hclear]
    exact hpick
  have hassign := assignChrom_eq_some "m" 10 1 ⟨[⟨10, 5, none⟩, ⟨10, 7, none⟩]⟩ 1 hp2
  refine ⟨?_, ?_, ?_⟩
  · norm_num [peakMatches, shapeMatches, shape]
  · norm_num [peakMatches, shapeMatches, shape]
  · show ((([⟨[⟨10, 5, none⟩, ⟨10, 7, none⟩]⟩] : List Chromatogram).map
        (assignChrom "m" 10 1)).map Prod.fst)
      = [⟨[⟨10, 5, none⟩, ⟨10, 7, some "m"⟩]⟩]
    rw [List.map_cons, List.map_nil, List.map_cons, List.map_nil, hassign]
    rw [hclear]
    rfl

/-- Claim C1: internal-standard quantification computes the baseline ratio
`R0 = A_Ana[0] / A_IS[0]` from the first chromatogram and returns, at every
index `n` where both peaks are present,
`C_Ana[n] = C_Ana[0] * (A_Ana[n] / A_IS[n]) / R0`. -/
theorem internal_standard_formula (c0 a0 i0 an inn : ℚ) (n : ℕ)
    (aAna aIS : List (Option ℚ))
    (h0a : aAna[0]? = some (some a0)) (h0i : aIS[0]? = some (some i0))
    (hna : aAna[n]? = some (some an)) (hni : aIS[n]? = some (some inn)) :
    ∃ out, quantifyInternal (some c0) aAna aIS = Except.ok out
      ∧ out[n]? = some (some (c0 * (an / inn) / (a0 / i0))) := by
  have hq : quantifyInternal (some c0) aAna aIS
      = Except.ok (List.zipWith (isRatioEntry (a0 / i0) c0) aAna aIS) := by
    unfold quantifyInternal
    rw [h0a, h0i]
  refine ⟨_, hq, ?_⟩
  rw [List.getElem?_zipWith, hna, hni]
  rfl

/-- Witness for C1, the scenario of the spec: `C_Ana[0] = 1.0`,
`A_Ana = [1000, 2000]`, `A_IS = [500, 250]` gives `R0 = 2.0` and
`C_Ana[1] = 1.0 * (2000 / 250) / 2.0 = 4.0`. -/
theorem internal_standard_formula_witness :
    ∃ out, quantifyInternal (some 1) [some 1000, some 2000] [some 500, some 250]
        = Except.ok out
      ∧ out[1]? = some (some 4) := by
  obtain ⟨out, h1, h2⟩ := internal_standard_formula 1 1000 500 2000 250 1
    [some 1000, some 2000] [some 500, some 250] rfl rfl rfl rfl
  refine ⟨out, h1, ?_⟩
  rw [h2]
  norm_num

/-- Claim C7: where no peak was assigned, the quantification series carries an
explicit gap (`none`, not a zero and not an error) at that index while
keeping one entry position per chromatogram; for internal-standard
quantification a missing internal-standard peak at index `k` yields a gap
at `k` only, without failing the rest of the series. -/
theorem quantification_gaps (sid : String) (cs : List Chromatogram)
    (c : Chromatogram) (std : Standard) (c0 a0 i0 : ℚ)
    (aAna aIS : List (Option ℚ)) (k : ℕ) (x : Option ℚ)
    (hk : cs[k]? = some c)
    (hun : ∀ p ∈ c.peaks, p.species_id ≠ some sid)
    (h0a : aAna[0]? = some (some a0)) (h0i : aIS[0]? = some (some i0))
    (hkA : aAna[k]? = some x) (hkI : aIS[k]? = some none)
    (hlenIS : aIS.length = aAna.length) :
    (areaSeries sid cs).length = cs.length
    ∧ (areaSeries sid cs)[k]? = some none
    ∧ (quantifyExternal std (areaSeries sid cs))[k]? = some none
    ∧ ∃ out, quantifyInternal (some c0) aAna aIS = Except.ok out
        ∧ out[k]? = some none
        ∧ out.length = aAna.length := by
  have hgap : (areaSeries sid cs)[k]? = some none := by
    unfold areaSeries
    rw [List.getElem?_map, hk]
    have hf : c.peaks.find? (isAssignedTo sid) = none := by
      rw [List.find?_eq_none]
      intro p hp
      simp only [isAssignedTo, decide_eq_true_eq]
      exact hun p hp
    simp [hf]
  refine ⟨?_, hgap, ?_, ?_⟩
  · unfold areaSeries
    exact List.length_map _ _
  · unfold quantifyExternal
    rw [List.getElem?_map, hgap]
    rfl
  · have hq : quantifyInternal (some c0) aAna aIS
        = Except.ok (List.zipWith (isRatioEntry (a0 / i0) c0) aAna aIS) := by
      unfold quantifyInternal
      rw [h0a, h0i]
    refine ⟨_, hq, ?_, ?_⟩
    · rw [List.getElem?_zipWith, hkA, hkI]
      cases x <;> rfl
    · rw [List.length_zipWith, hlenIS]
      exact min_self _

/-- Witness for C7 at a concrete input: the second chromatogram has no
assigned peak, so the area series has a gap at index 1, and a missing
internal-standard peak at index 1 gives a gap there while the series stays
`ok`. -/
theorem quantification_gaps_witness :
    (areaSeries "s" [⟨[⟨1, 5, some "s"⟩]⟩, ⟨[⟨1, 5, none⟩]⟩]).length = 2
    ∧ (areaSeries "s" [⟨[⟨1, 5, some "s"⟩]⟩, ⟨[⟨1, 5, none⟩]⟩])[1]? = some none
    ∧ ∃ out, quantifyInternal (some 1) [some 1000, some 2000] [some 500, none]
        = Except.ok out ∧ out[1]? = some none := by
  have h := quantification_gaps "s" [⟨[⟨1, 5, some "s"⟩]⟩, ⟨[⟨1, 5, none⟩]⟩]
    ⟨[⟨1, 5, none⟩]⟩ ⟨"s", 1, ⟨0, 0, 0, 0⟩⟩ 1 1000 500
    [some 1000, some 2000] [some 500, none] 1 (some 2000)
    rfl (by decide) rfl rfl rfl rfl rfl
  obtain ⟨out, ho, hgap, _⟩ := h.2.2.2
  exact ⟨h.1, h.2.1, out, ho, hgap⟩

/-- Claim C6: the calibration fit fails with a `ValidationError` exactly when the
number of supplied concentrations differs from the number of chromatograms
in the series. -/
theorem add_standard_length_validation (cs : List Chromatogram) (sid : String)
    (concs : List ℚ) :
    addStandard cs sid concs = Except.error QuantError.validationError
      ↔ concs.length ≠ cs.length := by
  unfold addStandard
  by_cases h : concs.length ≠ cs.length
  · rw [if_pos h]
    simp [h]
  · rw [if_neg h]
    refine iff_of_false ?_ h
    unfold fitLinear
    by_cases hz : ((samplePairs concs (areaSeries sid cs)).map
        (fun s => s.1 * s.1)).sum = 0
    · rw [if_pos hz]
      simp
    · rw [if_neg hz]
      simp

/-- Witness for C6: one concentration against zero chromatograms is
rejected with a `ValidationError`. -/
theorem add_standard_length_validation_witness :
    addStandard [] "A" [1] = Except.error QuantError.validationError :=
  (add_standard_length_validation [] "A" [1]).mpr (by decide)

/-- Claim C5 counterexample, at the repository's own serialized adenosine
standard: the recorded calibration range has `conc_lower = 0.0` although
the minimum of the fitted concentrations is 25.0, so the recorded range is
not the closed interval from the minimum to the maximum of the
concentration values. -/
theorem calibration_range_lower_not_min :
    (calibRange adoSamples).conc_lower = 0
    ∧ (calibRange adoSamples).conc_upper = 800
    ∧ adoRecordedRange.conc_lower = 0
    ∧ adoRecordedRange.conc_upper = 800
    ∧ adoSampleConcs.foldr min 1000000 = 25
    ∧ (0 : ℚ) ≠ 25 := by
  refine ⟨rfl, by decide, rfl, rfl, by decide, by norm_num⟩

/-- Claim C5 (amended): a successful calibration fit records the range with upper
bounds equal to the maxima of the fitted concentrations and lower bounds
0.0 (matching the serialized artifacts, not the minimum of the
concentration values); quantification at a signal above the range still
returns the inverted value but flags it as extrapolated. -/
theorem calibration_range_and_extrapolation (sid : String)
    (cs : List Chromatogram) (concs : List ℚ) (std : Standard)
    (hfit : addStandard cs sid concs = Except.ok std) (area : ℚ)
    (hout : std.calibration_range.signal_upper < area) :
    std.calibration_range.conc_lower = 0
    ∧ std.calibration_range.conc_upper
        = ((samplePairs concs (areaSeries sid cs)).map Prod.fst).foldl max 0
    ∧ std.calibration_range.signal_lower = 0
    ∧ (quantifyExternalOne std area).1 = area / std.slope
    ∧ (quantifyExternalOne std area).2 = true := by
  have hq2 : (quantifyExternalOne std area).2 = true := by
    have hd : decide (std.calibration_range.signal_upper < area) = true :=
      decide_eq_true hout
    simp [quantifyExternalOne, hd]
  unfold addStandard at hfit
  by_cases hlen : concs.length ≠ cs.length
  · rw [if_pos hlen] at hfit
    exact absurd hfit (by simp)
  · rw [if_neg hlen] at hfit
    unfold fitLinear at hfit
    by_cases hz : ((samplePairs concs (areaSeries sid cs)).map
        (fun s => s.1 * s.1)).sum = 0
    · rw [if_pos hz] at hfit
      exact absurd hfit (by simp)
    · rw [if_neg hz] at hfit
      simp only [Except.ok.injEq] at hfit
      subst hfit
      exact ⟨rfl, rfl, rfl, rfl, hq2⟩

/-- Witness for C5 (amended) at a concrete input: fitting concentrations
`[1, 2]` against assigned areas `[10, 20]` records range
`[0, 2] × [0, 20]` with slope 10, and quantifying the out-of-range signal
25 still returns `25 / 10` flagged as extrapolated. -/
theorem calibration_range_and_extrapolation_witness :
    ((quantifyExternalOne ⟨"A", 10, ⟨0, 2, 0, 20⟩⟩ 25).2 = true)
    ∧ ((⟨"A", 10, ⟨0, 2, 0, 20⟩⟩ : Standard).calibration_range.conc_lower = 0) := by
  have hfit : addStandard [⟨[⟨1, 10, some "A"⟩]⟩, ⟨[⟨1, 20, some "A"⟩]⟩] "A" [1, 2]
      = Except.ok ⟨"A", 10, ⟨0, 2, 0, 20⟩⟩ := by
    norm_num [addStandard, fitLinear, samplePairs, areaSeries, calibRange,
      isAssignedTo, List.find?, List.zip, List.zipWith, List.filterMap,
      max_def]
  have h := calibration_range_and_extrapolation "A"
    [⟨[⟨1, 10, some "A"⟩]⟩, ⟨[⟨1, 20, some "A"⟩]⟩] [1, 2]
    ⟨"A", 10, ⟨0, 2, 0, 20⟩⟩ hfit 25 (by norm_num)
  exact ⟨h.2.2.2.2, h.1⟩

/-! Reader-order helper. -/

theorem readSeries_map_id :
    ∀ (l1 : List RawFile) (l2 : List ℚ), l1.length ≤ l2.length →
      (List.zipWith (fun f t => (⟨f.name, t, ⟨f.peaks⟩⟩ : Measurement)) l1 l2).map
          Measurement.id
        = l1.map RawFile.name := by
  intro l1
  induction l1 with
  | nil => intro l2 _; rfl
  | cons a l1 ih =>
    intro l2 hl
    cases l2 with
    | nil => simp at hl
    | cons b l2 =>
      simp only [List.zipWith_cons_cons, List.map_cons]
      rw [ih l2 (by simpa using hl)]

/-- Claim C10: the series is ordered by alphabetical sorting of the imported file
names, and positional caller-supplied lists (reaction times, calibration
concentrations) are matched to chromatograms by that alphabetical order,
index by index. -/
theorem series_order_alphabetical (files : List RawFile) (ts : List ℚ)
    (hlen : ts.length = files.length) (k : ℕ) (m : Measurement)
    (hm : (readSeries files ts)[k]? = some m) :
    List.Pairwise (· ≤ ·) ((readSeries files ts).map Measurement.id)
    ∧ (readSeries files ts).length = files.length
    ∧ ts[k]? = some m.reaction_time
    ∧ (files.mergeSort (fun a b => strLe a.name b.name))[k]?
        = some ⟨m.id, m.chromatogram.peaks⟩ := by
  have htrans : ∀ a b c : RawFile, strLe a.name b.name = true →
      strLe b.name c.name = true → strLe a.name c.name = true := by
    intro a b c hab hbc
    simp only [strLe, decide_eq_true_eq] at *
    exact le_trans hab hbc
  have htotal : ∀ a b : RawFile,
      (strLe a.name b.name || strLe b.name a.name) = true := by
    intro a b
    simp only [strLe, Bool.or_eq_true, decide_eq_true_eq]
    exact le_total a.name b.name
  have hsort : List.Pairwise (fun a b : RawFile => strLe a.name b.name = true)
      (files.mergeSort (fun a b => strLe a.name b.name)) :=
    List.sorted_mergeSort htrans htotal files
  have hlen2 : (files.mergeSort (fun a b => strLe a.name b.name)).length
      = files.length :=
    (List.mergeSort_perm files _).length_eq
  refine ⟨?_, ?_, ?_⟩
  · unfold readSeries
    rw [readSeries_map_id _ ts (le_of_eq (hlen2.trans hlen.symm))]
    exact List.Pairwise.map RawFile.name
      (fun a b hab => by simpa [strLe] using hab) hsort
  · unfold readSeries
    rw [List.length_zipWith, hlen2, hlen]
    exact min_self _
  · have hm' := hm
    unfold readSeries at hm'
    rw [List.getElem?_zipWith] at hm'
    cases hs : (files.mergeSort (fun a b => strLe a.name b.name))[k]? with
    | none =>
      cases hts : ts[k]? with
      | none => rw [hs, hts] at hm'; simp at hm'
      | some t => rw [hs, hts] at hm'; simp at hm'
    | some f =>
      cases hts : ts[k]? with
      | none => rw [hs, hts] at hm'; simp at hm'
      | some t =>
        rw [hs, hts] at hm'
        simp only [Option.some.injEq] at hm'
        subst hm'
        exact ⟨rfl, rfl⟩

/-- Witness for C10 at a concrete input: two files named "b" and "a" with
reaction times `[0, 1]` are reordered alphabetically, so index 0 carries
the file "a" paired with reaction time 0. -/
theorem series_order_alphabetical_witness :
    ([(0 : ℚ), 1])[0]? = some ((⟨"a", 0, ⟨[]⟩⟩ : Measurement).reaction_time)
    ∧ (List.mergeSort [(⟨"b", []⟩ : RawFile), ⟨"a", []⟩]
        (fun a b => strLe a.name b.name))[0]?
      = some ⟨(⟨"a", 0, ⟨[]⟩⟩ : Measurement).id,
          (⟨"a", 0, ⟨[]⟩⟩ : Measurement).chromatogram.peaks⟩ := by
  have hsorted : List.mergeSort [(⟨"b", []⟩ : RawFile), ⟨"a", []⟩]
      (fun a b => strLe a.name b.name) = [⟨"a", []⟩, ⟨"b", []⟩] := by
    simp [List.mergeSort, List.merge, strLe]
    decide
  have hm : (readSeries [⟨"b", []⟩, ⟨"a", []⟩] [0, 1])[0]?
      = some (⟨"a", 0, ⟨[]⟩⟩ : Measurement) := by
    unfold readSeries
    rw [hsorted]
    rfl
  have h := series_order_alphabetical [⟨"b", []⟩, ⟨"a", []⟩] [0, 1] rfl 0
    ⟨"a", 0, ⟨[]⟩⟩ hm
  exact ⟨h.2.2.1, h.2.2.2⟩

end Chromatopy
